import Mathlib

/-!
Verification development for the kcenon/samples repository.

The repository's two reliable-UDP samples (`reliable_udp_echo_client.cpp`,
`reliable_udp_echo_server.cpp`) consume a reliable-delivery transport whose
implementation is external to the provided sources; the specification
describes that transport at design level (sequencer/reassembly buffer,
acknowledgement tracker, congestion window, session state machine,
statistics).  The definitions below embed, on one hand, the glue code that is
present in the sources (the echo server's receive callback and the two
success-rate computations), and, on the other hand, the reliable-delivery
protocol as the specification describes it, so the spec's claimed properties
can be settled formally.
-/

namespace ReliableUdp

/-- Payload bytes of a datagram, as the byte sequence of a C++ buffer
(`std::vector of uint8_t` in the samples); modelled as a list of characters. -/
abbrev Bytes := List Char

/-- Modelled from the spec: §3 "Packet — unit of transmission", carrying a
monotonically assigned sequence number and an opaque payload.  The ACK/NACK
flag variants are represented by separate protocol events rather than a flag
field; DATA packets are the ones flowing through the reassembly buffer. -/
structure Packet where
  sequence : Nat
  payload : Bytes
deriving DecidableEq, Repr

/-- Modelled from the spec: §3 "Receive Window / Reassembly Buffer" — a
mapping from sequence number to buffered payload for packets received ahead
of `next_expected_sequence`, plus the `next_expected_sequence` floor. -/
structure ReassemblyState where
  next_expected_sequence : Nat
  buffer : List (Nat × Bytes)
deriving DecidableEq, Repr

/-- The reassembly state of a freshly started session: nothing delivered yet,
empty buffer. -/
def initialState : ReassemblyState := ⟨0, []⟩

/-- Look a sequence number up in the reassembly buffer. -/
def lookupBuf : List (Nat × Bytes) → Nat → Option Bytes
  | [], _ => none
  | (k, v) :: rest, s => if k = s then some v else lookupBuf rest s

/-- Remove a sequence number's entry from the reassembly buffer. -/
def removeBuf (buf : List (Nat × Bytes)) (s : Nat) : List (Nat × Bytes) :=
  buf.filter (fun e => e.1 != s)

theorem mem_removeBuf {buf : List (Nat × Bytes)} {s : Nat} {e : Nat × Bytes}
    (h : e ∈ removeBuf buf s) : e ∈ buf ∧ e.1 ≠ s := by
  have h' := List.mem_filter.mp h
  refine ⟨h'.1, ?_⟩
  simpa using h'.2

theorem removeBuf_sublist (buf : List (Nat × Bytes)) (s : Nat) :
    (removeBuf buf s).Sublist buf :=
  List.filter_sublist buf

theorem lookupBuf_eq_none {buf : List (Nat × Bytes)} {s : Nat} :
    lookupBuf buf s = none ↔ ∀ e ∈ buf, e.1 ≠ s := by
  induction buf with
  | nil => simp [lookupBuf]
  | cons e rest ih =>
    obtain ⟨k, v⟩ := e
    by_cases hk : k = s
    · subst hk
      simp [lookupBuf]
    · simp [lookupBuf, hk, ih]

theorem lookupBuf_some_mem {buf : List (Nat × Bytes)} {s : Nat} {v : Bytes}
    (h : lookupBuf buf s = some v) : (s, v) ∈ buf := by
  induction buf with
  | nil => simp [lookupBuf] at h
  | cons e rest ih =>
    obtain ⟨k, w⟩ := e
    by_cases hk : k = s
    · subst hk
      simp [lookupBuf] at h
      simp [h]
    · simp [lookupBuf, hk] at h
      exact List.mem_cons_of_mem _ (ih h)

theorem removeBuf_length_lt {buf : List (Nat × Bytes)} {s : Nat} {v : Bytes}
    (h : lookupBuf buf s = some v) : (removeBuf buf s).length < buf.length := by
  induction buf with
  | nil => simp [lookupBuf] at h
  | cons e rest ih =>
    obtain ⟨k, w⟩ := e
    by_cases hk : k = s
    · subst hk
      have hle : (removeBuf rest k).length ≤ rest.length :=
        (removeBuf_sublist rest k).length_le
      simp only [removeBuf, List.filter_cons]
      simp only [bne_self_eq_false]
      simpa [removeBuf] using Nat.lt_succ_of_le hle
    · simp only [lookupBuf, if_neg hk] at h
      have := ih h
      simp only [removeBuf, List.filter_cons]
      have hne : (k != s) = true := by simpa using hk
      rw [hne]
      simpa [removeBuf] using Nat.succ_lt_succ this

/-- Modelled from the spec: §4.1 — drain the reassembly buffer of every
now-contiguous packet, delivering them in sequence order and advancing the
contiguous floor as long as the exact next sequence is available. -/
def drainBuffer (buf : List (Nat × Bytes)) (next : Nat) :
    List (Nat × Bytes) × Nat × List Packet :=
  match h : lookupBuf buf next with
  | none => (buf, next, [])
  | some v =>
      let r := drainBuffer (removeBuf buf next) (next + 1)
      (r.1, r.2.1, ⟨next, v⟩ :: r.2.2)
termination_by buf.length
decreasing_by exact removeBuf_length_lt h

theorem drainBuffer_none {buf : List (Nat × Bytes)} {next : Nat}
    (h : lookupBuf buf next = none) : drainBuffer buf next = (buf, next, []) := by
  rw [drainBuffer]
  split
  · rfl
  · rename_i v hv
    rw [h] at hv
    exact absurd hv (by simp)

theorem drainBuffer_some {buf : List (Nat × Bytes)} {next : Nat} {v : Bytes}
    (h : lookupBuf buf next = some v) :
    drainBuffer buf next =
      ((drainBuffer (removeBuf buf next) (next + 1)).1,
       (drainBuffer (removeBuf buf next) (next + 1)).2.1,
       Packet.mk next v :: (drainBuffer (removeBuf buf next) (next + 1)).2.2) := by
  rw [drainBuffer]
  split
  · rename_i hn
    rw [h] at hn
    exact absurd hn (by simp)
  · rename_i w hw
    rw [h] at hw
    cases hw
    rfl

theorem drainBuffer_spec_aux :
    ∀ (fuel : Nat) (buf : List (Nat × Bytes)) (next : Nat),
      buf.length ≤ fuel →
      (buf.map Prod.fst).Nodup → (∀ e ∈ buf, next ≤ e.1) →
      next ≤ (drainBuffer buf next).2.1
      ∧ (drainBuffer buf next).2.2.map Packet.sequence =
          List.range' next ((drainBuffer buf next).2.1 - next)
      ∧ (∀ q ∈ (drainBuffer buf next).2.2, (q.sequence, q.payload) ∈ buf)
      ∧ (∀ e ∈ (drainBuffer buf next).1, e ∈ buf ∧ (drainBuffer buf next).2.1 < e.1)
      ∧ ((drainBuffer buf next).1.map Prod.fst).Nodup := by
  intro fuel
  induction fuel with
  | zero =>
    intro buf next hlen hnd hge
    have hbuf : buf = [] := List.eq_nil_of_length_eq_zero (Nat.le_zero.mp hlen)
    subst hbuf
    rw [drainBuffer_none (by simp [lookupBuf])]
    simp
  | succ fuel ih =>
    intro buf next hlen hnd hge
    cases h : lookupBuf buf next with
    | none =>
      rw [drainBuffer_none h]
      refine ⟨Nat.le_refl _, by simp, by simp, ?_, hnd⟩
      intro e he
      refine ⟨he, ?_⟩
      have hne : e.1 ≠ next := lookupBuf_eq_none.mp h e he
      exact Nat.lt_of_le_of_ne (hge e he) (Ne.symm hne)
    | some v =>
      rw [drainBuffer_some h]
      have hlt : (removeBuf buf next).length < buf.length := removeBuf_length_lt h
      have hlen' : (removeBuf buf next).length ≤ fuel :=
        Nat.le_of_lt_succ (Nat.lt_of_lt_of_le hlt hlen)
      have hnd' : ((removeBuf buf next).map Prod.fst).Nodup :=
        hnd.sublist ((removeBuf_sublist buf next).map Prod.fst)
      have hge' : ∀ e ∈ removeBuf buf next, next + 1 ≤ e.1 := by
        intro e he
        obtain ⟨hmem, hne⟩ := mem_removeBuf he
        exact Nat.succ_le_of_lt (Nat.lt_of_le_of_ne (hge e hmem) (Ne.symm hne))
      obtain ⟨ha, hb, hc, hd, he⟩ := ih (removeBuf buf next) (next + 1) hlen' hnd' hge'
      refine ⟨Nat.le_trans (Nat.le_succ next) ha, ?_, ?_, ?_, he⟩
      · have hcount : (drainBuffer (removeBuf buf next) (next + 1)).2.1 - next =
            ((drainBuffer (removeBuf buf next) (next + 1)).2.1 - (next + 1)) + 1 := by
          omega
        rw [hcount, List.range'_succ]
        simpa using hb
      · intro q hq
        rcases List.mem_cons.mp hq with hq | hq
        · subst hq
          exact lookupBuf_some_mem h
        · exact (mem_removeBuf (hc q hq)).1
      · intro e hmem
        obtain ⟨h1, h2⟩ := hd e hmem
        exact ⟨(mem_removeBuf h1).1, h2⟩

/-- Modelled from the spec: §4.1 — result of one `on_receive` step: the new
reassembly state, the packets delivered to the application (in order), and
whether an acknowledgement was emitted. -/
structure ReceiveResult where
  state : ReassemblyState
  delivered : List Packet
  ack_sent : Bool
deriving DecidableEq, Repr

/-- Modelled from the spec: §4.1 `on_receive(packet)` of the reliable-ordered
reassembly path, whose implementation is not in the provided sources.  If the
sequence equals `next_expected_sequence`, deliver immediately, advance, and
drain the now-contiguous buffered packets; if greater, buffer it (bounded by
the window capacity, never buffering a sequence twice) without delivering; if
smaller, treat it as a duplicate: acknowledge, do not re-deliver. -/
def on_receive (capacity : Nat) (st : ReassemblyState) (p : Packet) : ReceiveResult :=
  if p.sequence = st.next_expected_sequence then
    let r := drainBuffer st.buffer (st.next_expected_sequence + 1)
    { state := { next_expected_sequence := r.2.1, buffer := r.1 },
      delivered := p :: r.2.2,
      ack_sent := true }
  else if st.next_expected_sequence < p.sequence then
    if (lookupBuf st.buffer p.sequence).isNone && st.buffer.length < capacity then
      { state := { st with buffer := (p.sequence, p.payload) :: st.buffer },
        delivered := [], ack_sent := false }
    else
      { state := st, delivered := [], ack_sent := false }
  else
    { state := st, delivered := [], ack_sent := true }

/-- Modelled from the spec: the receive side of a session processing a whole
inbound trace of datagrams, one `on_receive` at a time, collecting every
application-visible delivery in order. -/
def processTrace (capacity : Nat) (st : ReassemblyState) :
    List Packet → ReassemblyState × List Packet
  | [] => (st, [])
  | p :: rest =>
      let r := on_receive capacity st p
      let pr := processTrace capacity r.state rest
      (pr.1, r.delivered ++ pr.2)

/-- Structural invariant of the reassembly buffer: buffered sequence numbers
are distinct and strictly above the contiguous floor. -/
def StructInv (st : ReassemblyState) : Prop :=
  (st.buffer.map Prod.fst).Nodup ∧ ∀ e ∈ st.buffer, st.next_expected_sequence < e.1

theorem structInv_initial : StructInv initialState := by
  constructor <;> simp [initialState]

theorem on_receive_step (cap : Nat) (st : ReassemblyState) (p : Packet)
    (hinv : StructInv st) :
    StructInv (on_receive cap st p).state
    ∧ st.next_expected_sequence ≤ (on_receive cap st p).state.next_expected_sequence
    ∧ (on_receive cap st p).delivered.map Packet.sequence =
        List.range' st.next_expected_sequence
          ((on_receive cap st p).state.next_expected_sequence - st.next_expected_sequence)
    ∧ (∀ q ∈ (on_receive cap st p).delivered,
        (q.sequence = p.sequence ∧ q.payload = p.payload) ∨ (q.sequence, q.payload) ∈ st.buffer)
    ∧ (∀ e ∈ (on_receive cap st p).state.buffer, e = (p.sequence, p.payload) ∨ e ∈ st.buffer)
    ∧ (p.sequence = st.next_expected_sequence →
        st.next_expected_sequence < (on_receive cap st p).state.next_expected_sequence) := by
  obtain ⟨hnd, hgt⟩ := hinv
  by_cases heq : p.sequence = st.next_expected_sequence
  · have hge : ∀ e ∈ st.buffer, st.next_expected_sequence + 1 ≤ e.1 := fun e he =>
      Nat.succ_le_of_lt (hgt e he)
    obtain ⟨ha, hb, hc, hd, hnd'⟩ :=
      drainBuffer_spec_aux st.buffer.length st.buffer (st.next_expected_sequence + 1)
        (Nat.le_refl _) hnd hge
    simp only [on_receive, if_pos heq]
    refine ⟨⟨hnd', fun e he => (hd e he).2⟩, by omega, ?_, ?_, fun e he => Or.inr (hd e he).1,
      fun _ => by omega⟩
    · have hcount :
          (drainBuffer st.buffer (st.next_expected_sequence + 1)).2.1 - st.next_expected_sequence
          = ((drainBuffer st.buffer (st.next_expected_sequence + 1)).2.1
              - (st.next_expected_sequence + 1)) + 1 := by omega
      rw [hcount, List.range'_succ]
      simpa [heq] using hb
    · intro q hq
      rcases List.mem_cons.mp hq with hq | hq
      · subst hq
        exact Or.inl ⟨rfl, rfl⟩
      · exact Or.inr (hc q hq)
  · by_cases hlt : st.next_expected_sequence < p.sequence
    · by_cases hroom : (lookupBuf st.buffer p.sequence).isNone = true
        ∧ st.buffer.length < cap
      · have hcond : ((lookupBuf st.buffer p.sequence).isNone
            && decide (st.buffer.length < cap)) = true := by
          simp [hroom.1, hroom.2]
        simp only [on_receive, if_neg heq, if_pos hlt, Bool.and_eq_true, hcond, if_pos]
        have hnotmem : p.sequence ∉ st.buffer.map Prod.fst := by
          intro hmem
          obtain ⟨e, he, hfst⟩ := List.mem_map.mp hmem
          have := lookupBuf_eq_none.mp (Option.isNone_iff_eq_none.mp hroom.1) e he
          exact this hfst
        refine ⟨⟨?_, ?_⟩, Nat.le_refl _, by simp, by simp, ?_, fun h => absurd h heq⟩
        · rw [List.map_cons]
          exact List.nodup_cons.mpr ⟨hnotmem, hnd⟩
        · intro e he
          rcases List.mem_cons.mp he with he | he
          · subst he
            exact hlt
          · exact hgt e he
        · intro e he
          rcases List.mem_cons.mp he with he | he
          · exact Or.inl he
          · exact Or.inr he
      · have hcond : ((lookupBuf st.buffer p.sequence).isNone
            && decide (st.buffer.length < cap)) = false := by
          rcases Bool.eq_false_or_eq_true (lookupBuf st.buffer p.sequence).isNone with h | h
          · have : ¬ st.buffer.length < cap := fun hl => hroom ⟨h, hl⟩
            simp [this]
          · simp [h]
        simp only [on_receive, if_neg heq, if_pos hlt, hcond, if_neg (Bool.false_ne_true)]
        exact ⟨⟨hnd, hgt⟩, Nat.le_refl _, by simp, by simp, fun e he => Or.inr he,
          fun h => absurd h heq⟩
    · simp only [on_receive, if_neg heq, if_neg hlt]
      exact ⟨⟨hnd, hgt⟩, Nat.le_refl _, by simp, by simp, fun e he => Or.inr he,
        fun h => absurd h heq⟩

theorem processTrace_spec (cap : Nat) :
    ∀ (trace : List Packet) (st : ReassemblyState), StructInv st →
      StructInv (processTrace cap st trace).1
      ∧ st.next_expected_sequence ≤ (processTrace cap st trace).1.next_expected_sequence
      ∧ (processTrace cap st trace).2.map Packet.sequence =
          List.range' st.next_expected_sequence
            ((processTrace cap st trace).1.next_expected_sequence
              - st.next_expected_sequence)
      ∧ (∀ q ∈ (processTrace cap st trace).2,
          (∃ p ∈ trace, q.sequence = p.sequence ∧ q.payload = p.payload)
          ∨ (q.sequence, q.payload) ∈ st.buffer)
      ∧ (∀ e ∈ (processTrace cap st trace).1.buffer,
          (∃ p ∈ trace, e = (p.sequence, p.payload)) ∨ e ∈ st.buffer) := by
  intro trace
  induction trace with
  | nil =>
    intro st hinv
    exact ⟨hinv, Nat.le_refl _, by simp [processTrace], by simp [processTrace],
      by simp [processTrace]⟩
  | cons p rest ih =>
    intro st hinv
    obtain ⟨hinv1, hle1, hmap1, hdel1, hbuf1, _⟩ := on_receive_step cap st p hinv
    obtain ⟨hinv2, hle2, hmap2, hdel2, hbuf2⟩ := ih (on_receive cap st p).state hinv1
    refine ⟨hinv2, Nat.le_trans hle1 hle2, ?_, ?_, ?_⟩
    · show ((on_receive cap st p).delivered
          ++ (processTrace cap (on_receive cap st p).state rest).2).map Packet.sequence
        = List.range' st.next_expected_sequence
            ((processTrace cap (on_receive cap st p).state rest).1.next_expected_sequence
              - st.next_expected_sequence)
      rw [List.map_append, hmap1, hmap2]
      have harr := List.range'_append_1 st.next_expected_sequence
        ((on_receive cap st p).state.next_expected_sequence - st.next_expected_sequence)
        ((processTrace cap (on_receive cap st p).state rest).1.next_expected_sequence
          - (on_receive cap st p).state.next_expected_sequence)
      have h1 : st.next_expected_sequence
          + ((on_receive cap st p).state.next_expected_sequence
              - st.next_expected_sequence)
          = (on_receive cap st p).state.next_expected_sequence := by omega
      have h2 : ((processTrace cap (on_receive cap st p).state rest).1.next_expected_sequence
              - (on_receive cap st p).state.next_expected_sequence)
          + ((on_receive cap st p).state.next_expected_sequence
              - st.next_expected_sequence)
          = (processTrace cap (on_receive cap st p).state rest).1.next_expected_sequence
              - st.next_expected_sequence := by omega
      rw [h1, h2] at harr
      exact harr
    · intro q hq
      rcases List.mem_append.mp hq with hq | hq
      · rcases hdel1 q hq with h | h
        · exact Or.inl ⟨p, List.mem_cons_self p rest, h⟩
        · exact Or.inr h
      · rcases hdel2 q hq with ⟨p', hp', h⟩ | h
        · exact Or.inl ⟨p', List.mem_cons_of_mem p hp', h⟩
        · rcases hbuf1 _ h with h' | h'
          · exact Or.inl ⟨p, List.mem_cons_self p rest, by
              have h1 := congrArg Prod.fst h'
              have h2 := congrArg Prod.snd h'
              exact ⟨h1, h2⟩⟩
          · exact Or.inr h'
    · intro e he
      rcases hbuf2 e he with ⟨p', hp', h⟩ | h
      · exact Or.inl ⟨p', List.mem_cons_of_mem p hp', h⟩
      · rcases hbuf1 e h with h' | h'
        · exact Or.inl ⟨p, List.mem_cons_self p rest, h'⟩
        · exact Or.inr h'

theorem next_progress (cap : Nat) :
    ∀ (trace : List Packet) (st : ReassemblyState) (k m : Nat), StructInv st →
      k ≤ st.next_expected_sequence →
      (List.range' k m).Sublist (trace.map Packet.sequence) →
      k + m ≤ (processTrace cap st trace).1.next_expected_sequence := by
  intro trace
  induction trace with
  | nil =>
    intro st k m hinv hk hsub
    have hm : m = 0 := by simpa using hsub
    simpa [hm, processTrace] using hk
  | cons p rest ih =>
    intro st k m hinv hk hsub
    obtain ⟨hinv1, hle1, _, _, _, hadv⟩ := on_receive_step cap st p hinv
    cases m with
    | zero =>
      have hrest : (List.range' k 0).Sublist (rest.map Packet.sequence) := by simp
      have := ih (on_receive cap st p).state k 0 hinv1 (Nat.le_trans hk hle1) hrest
      simpa [processTrace] using this
    | succ m' =>
      rw [List.range'_succ] at hsub
      simp only [List.map_cons] at hsub
      cases hsub with
      | cons _ hsub' =>
        have hsub'' : (List.range' k (m' + 1)).Sublist (rest.map Packet.sequence) := by
          rw [List.range'_succ]
          exact hsub'
        have := ih (on_receive cap st p).state k (m' + 1) hinv1
          (Nat.le_trans hk hle1) hsub''
        simpa [processTrace] using this
      | cons₂ _ hsub' =>
        have hk1 : p.sequence + 1 ≤ (on_receive cap st p).state.next_expected_sequence := by
          by_cases hke : p.sequence = st.next_expected_sequence
          · have := hadv hke
            omega
          · have : p.sequence < st.next_expected_sequence := Nat.lt_of_le_of_ne hk hke
            omega
        have hrec := ih (on_receive cap st p).state (p.sequence + 1) m' hinv1 hk1 hsub'
        show p.sequence + (m' + 1)
          ≤ (processTrace cap (on_receive cap st p).state rest).1.next_expected_sequence
        omega

theorem map_mk_payload (pl : Nat → Bytes) :
    ∀ (l : List Packet), (∀ q ∈ l, q.payload = pl q.sequence) →
      l.map (fun q => Packet.mk q.sequence (pl q.sequence)) = l := by
  intro l
  induction l with
  | nil => intro _; rfl
  | cons a t iht =>
    intro h
    have ha : a.payload = pl a.sequence := h a (List.mem_cons_self a t)
    have hmk : Packet.mk a.sequence (pl a.sequence) = a := by
      cases a with
      | mk s q => exact congrArg (Packet.mk s) ha.symm
    simp only [List.map_cons, hmk, iht (fun q hq => h q (List.mem_cons_of_mem a hq))]

/-- C1: under `reliable_ordered` mode, for every inbound ordering of the
datagram channel — reordering, duplication, and loss followed by
retransmission, expressed by requiring only that some in-order occurrence of
each sent packet appears in the inbound trace — the payloads delivered to the
application are exactly the payloads sent, one each, in strictly increasing
sequence-number order. -/
theorem reliable_ordered_delivery (n cap : Nat) (pl : Nat → Bytes) (trace : List Packet)
    (hpl : ∀ p ∈ trace, p.payload = pl p.sequence)
    (hlt : ∀ p ∈ trace, p.sequence < n)
    (hsub : ((List.range n).map (fun s => Packet.mk s (pl s))).Sublist trace) :
    (processTrace cap initialState trace).2
      = (List.range n).map (fun s => Packet.mk s (pl s))
    ∧ (processTrace cap initialState trace).2.map Packet.payload = (List.range n).map pl
    ∧ ((processTrace cap initialState trace).2.map Packet.sequence).Pairwise (· < ·) := by
  obtain ⟨hinvF, hleF, hmapF, hdelF, _⟩ :=
    processTrace_spec cap trace initialState structInv_initial
  have hsubseq : (List.range' 0 n).Sublist (trace.map Packet.sequence) := by
    have h := hsub.map Packet.sequence
    rw [List.map_map] at h
    have h2 : (Packet.sequence ∘ fun s => Packet.mk s (pl s)) = id := rfl
    rw [h2, List.map_id, List.range_eq_range'] at h
    exact h
  have hprog := next_progress cap trace initialState 0 n structInv_initial
    (Nat.le_refl 0) hsubseq
  have hql : ∀ q ∈ (processTrace cap initialState trace).2,
      q.payload = pl q.sequence ∧ q.sequence < n := by
    intro q hq
    rcases hdelF q hq with ⟨p, hp, hs, hpay⟩ | habs
    · rw [hs, hpay]
      exact ⟨hpl p hp, hlt p hp⟩
    · simp [initialState] at habs
  have hboundF : (processTrace cap initialState trace).1.next_expected_sequence ≤ n := by
    by_contra hgt
    push_neg at hgt
    have hmem : n ∈ (processTrace cap initialState trace).2.map Packet.sequence := by
      rw [hmapF]
      refine List.mem_range'_1.mpr ?_
      have h0 : initialState.next_expected_sequence = 0 := rfl
      rw [h0]
      omega
    obtain ⟨q, hq, hqs⟩ := List.mem_map.mp hmem
    have := (hql q hq).2
    omega
  have hnF : (processTrace cap initialState trace).1.next_expected_sequence = n := by
    have : n ≤ (processTrace cap initialState trace).1.next_expected_sequence := by
      simpa [initialState] using hprog
    omega
  have hseq : (processTrace cap initialState trace).2.map Packet.sequence
      = List.range n := by
    rw [hmapF]
    have h0 : initialState.next_expected_sequence = 0 := rfl
    rw [h0, hnF, List.range_eq_range']
    simp
  have hout : (processTrace cap initialState trace).2
      = (List.range n).map (fun s => Packet.mk s (pl s)) := by
    have h1 := map_mk_payload pl (processTrace cap initialState trace).2
      (fun q hq => (hql q hq).1)
    calc (processTrace cap initialState trace).2
        = (processTrace cap initialState trace).2.map
            (fun q => Packet.mk q.sequence (pl q.sequence)) := h1.symm
      _ = ((processTrace cap initialState trace).2.map Packet.sequence).map
            (fun s => Packet.mk s (pl s)) := by rw [List.map_map]; rfl
      _ = (List.range n).map (fun s => Packet.mk s (pl s)) := by rw [hseq]
  refine ⟨hout, ?_, ?_⟩
  · rw [hout, List.map_map]
    rfl
  · rw [hseq]
    exact List.pairwise_lt_range n

/-- Concrete payload assignment used by the witness runs. -/
def plWitness : Nat → Bytes := fun s => if s = 0 then ['a'] else ['b']

/-- Concrete adversarial inbound trace: reordered and duplicated datagrams. -/
def traceWitness : List Packet := [⟨1, ['b']⟩, ⟨0, ['a']⟩, ⟨1, ['b']⟩]

theorem reliable_ordered_delivery_witness :
    (processTrace 8 initialState traceWitness).2
      = (List.range 2).map (fun s => Packet.mk s (plWitness s))
    ∧ (processTrace 8 initialState traceWitness).2.map Packet.payload
      = (List.range 2).map plWitness
    ∧ ((processTrace 8 initialState traceWitness).2.map Packet.sequence).Pairwise (· < ·) :=
  reliable_ordered_delivery 2 8 plWitness traceWitness (by decide) (by decide) (by decide)

/-- C2: duplicate arrivals are idempotent at the application interface — the
sequence numbers delivered over any inbound trace are pairwise distinct, and
a packet whose sequence is below `next_expected_sequence` is acknowledged but
re-delivers nothing and leaves the state unchanged. -/
theorem duplicate_idempotence (cap : Nat) (trace : List Packet)
    (st : ReassemblyState) (p : Packet)
    (hdup : p.sequence < st.next_expected_sequence) :
    ((processTrace cap initialState trace).2.map Packet.sequence).Nodup
    ∧ (on_receive cap st p).delivered = []
    ∧ (on_receive cap st p).ack_sent = true
    ∧ (on_receive cap st p).state = st := by
  obtain ⟨_, _, hmapF, _, _⟩ := processTrace_spec cap trace initialState structInv_initial
  have hne : p.sequence ≠ st.next_expected_sequence := Nat.ne_of_lt hdup
  have hnlt : ¬ st.next_expected_sequence < p.sequence := by omega
  refine ⟨?_, ?_, ?_, ?_⟩
  · rw [hmapF]
    exact List.nodup_range' _ _
  · simp [on_receive, hne, hnlt]
  · simp [on_receive, hne, hnlt]
  · simp [on_receive, hne, hnlt]

theorem duplicate_idempotence_witness :
    ((processTrace 8 initialState traceWitness).2.map Packet.sequence).Nodup
    ∧ (on_receive 8 ⟨3, []⟩ ⟨1, ['a']⟩).delivered = []
    ∧ (on_receive 8 ⟨3, []⟩ ⟨1, ['a']⟩).ack_sent = true
    ∧ (on_receive 8 ⟨3, []⟩ ⟨1, ['a']⟩).state = ⟨3, []⟩ :=
  duplicate_idempotence 8 traceWitness ⟨3, []⟩ ⟨1, ['a']⟩ (by decide)

/-- C5: case behavior of the reassembly step.  An in-sequence packet is
delivered immediately, the floor advances, and every now-contiguous buffered
packet is drained in order (consecutive sequence numbers, ending with no
buffered packet at the new floor); a packet ahead of the floor is buffered
without delivery, bounded by the window capacity; a packet below the floor is
a duplicate, acknowledged and ignored; and the floor moves only when the
exact expected sequence arrives. -/
theorem on_receive_case_behavior (cap : Nat) (st : ReassemblyState) (p : Packet)
    (hinv : StructInv st) :
    (p.sequence = st.next_expected_sequence →
        (on_receive cap st p).delivered.head? = some p
      ∧ st.next_expected_sequence < (on_receive cap st p).state.next_expected_sequence
      ∧ (on_receive cap st p).delivered.map Packet.sequence =
          List.range' st.next_expected_sequence
            ((on_receive cap st p).state.next_expected_sequence
              - st.next_expected_sequence)
      ∧ lookupBuf (on_receive cap st p).state.buffer
          (on_receive cap st p).state.next_expected_sequence = none
      ∧ (∀ q ∈ (on_receive cap st p).delivered.tail, (q.sequence, q.payload) ∈ st.buffer))
    ∧ (st.next_expected_sequence < p.sequence →
        (on_receive cap st p).delivered = []
      ∧ (on_receive cap st p).state.next_expected_sequence = st.next_expected_sequence
      ∧ (st.buffer.length ≤ cap → (on_receive cap st p).state.buffer.length ≤ cap)
      ∧ (lookupBuf st.buffer p.sequence = none → st.buffer.length < cap →
          (on_receive cap st p).state.buffer = (p.sequence, p.payload) :: st.buffer))
    ∧ (p.sequence < st.next_expected_sequence →
        (on_receive cap st p).state = st
      ∧ (on_receive cap st p).delivered = []
      ∧ (on_receive cap st p).ack_sent = true)
    ∧ ((on_receive cap st p).state.next_expected_sequence ≠ st.next_expected_sequence →
        p.sequence = st.next_expected_sequence) := by
  obtain ⟨hnd, hgt⟩ := hinv
  refine ⟨?_, ?_, ?_, ?_⟩
  · intro heq
    have hge : ∀ e ∈ st.buffer, st.next_expected_sequence + 1 ≤ e.1 := fun e he =>
      Nat.succ_le_of_lt (hgt e he)
    obtain ⟨ha, hb, hc, hd, _⟩ :=
      drainBuffer_spec_aux st.buffer.length st.buffer (st.next_expected_sequence + 1)
        (Nat.le_refl _) hnd hge
    simp only [on_receive, if_pos heq]
    refine ⟨rfl, by omega, ?_, ?_, ?_⟩
    · have hcount :
          (drainBuffer st.buffer (st.next_expected_sequence + 1)).2.1
            - st.next_expected_sequence
          = ((drainBuffer st.buffer (st.next_expected_sequence + 1)).2.1
              - (st.next_expected_sequence + 1)) + 1 := by omega
      rw [hcount, List.range'_succ]
      simpa [heq] using hb
    · refine lookupBuf_eq_none.mpr ?_
      intro e he
      have := (hd e he).2
      omega
    · intro q hq
      exact hc q hq
  · intro hlt
    have hne : p.sequence ≠ st.next_expected_sequence := by omega
    by_cases hroom : (lookupBuf st.buffer p.sequence).isNone = true
        ∧ st.buffer.length < cap
    · have hcond : ((lookupBuf st.buffer p.sequence).isNone
          && decide (st.buffer.length < cap)) = true := by
        simp [hroom.1, hroom.2]
      refine ⟨?_, ?_, ?_, ?_⟩
      · simp [on_receive, hne, hlt, hcond]
      · simp [on_receive, hne, hlt, hcond]
      · intro _
        simp only [on_receive, if_neg hne, if_pos hlt, hcond, if_pos]
        simpa using hroom.2
      · intro _ _
        simp [on_receive, hne, hlt, hcond]
    · have hcond : ((lookupBuf st.buffer p.sequence).isNone
          && decide (st.buffer.length < cap)) = false := by
        rcases Bool.eq_false_or_eq_true (lookupBuf st.buffer p.sequence).isNone with h | h
        · have : ¬ st.buffer.length < cap := fun hl => hroom ⟨h, hl⟩
          simp [this]
        · simp [h]
      refine ⟨?_, ?_, ?_, ?_⟩
      · simp [on_receive, hne, hlt, hcond]
      · simp [on_receive, hne, hlt, hcond]
      · intro h
        simpa [on_receive, hne, hlt, hcond] using h
      · intro hnone hlen
        have : (lookupBuf st.buffer p.sequence).isNone = true := by simp [hnone]
        exact absurd ⟨this, hlen⟩ hroom
  · intro hdup
    have hne : p.sequence ≠ st.next_expected_sequence := Nat.ne_of_lt hdup
    have hnlt : ¬ st.next_expected_sequence < p.sequence := by omega
    simp [on_receive, hne, hnlt]
  · intro hchanged
    by_contra hne
    apply hchanged
    by_cases hlt : st.next_expected_sequence < p.sequence
    · by_cases hroom : (lookupBuf st.buffer p.sequence).isNone = true
          ∧ st.buffer.length < cap
      · have hcond : ((lookupBuf st.buffer p.sequence).isNone
            && decide (st.buffer.length < cap)) = true := by
          simp [hroom.1, hroom.2]
        simp [on_receive, hne, hlt, hcond]
      · have hcond : ((lookupBuf st.buffer p.sequence).isNone
            && decide (st.buffer.length < cap)) = false := by
          rcases Bool.eq_false_or_eq_true (lookupBuf st.buffer p.sequence).isNone with h | h
          · have : ¬ st.buffer.length < cap := fun hl => hroom ⟨h, hl⟩
            simp [this]
          · simp [h]
        simp [on_receive, hne, hlt, hcond]
    · simp [on_receive, hne, hlt]

theorem on_receive_case_behavior_witness :
    ((1 : Nat) = (ReassemblyState.mk 1 [(2, ['c'])]).next_expected_sequence →
        (on_receive 8 ⟨1, [(2, ['c'])]⟩ ⟨1, ['b']⟩).delivered.head? = some ⟨1, ['b']⟩
      ∧ (ReassemblyState.mk 1 [(2, ['c'])]).next_expected_sequence
          < (on_receive 8 ⟨1, [(2, ['c'])]⟩ ⟨1, ['b']⟩).state.next_expected_sequence
      ∧ (on_receive 8 ⟨1, [(2, ['c'])]⟩ ⟨1, ['b']⟩).delivered.map Packet.sequence =
          List.range' (ReassemblyState.mk 1 [(2, ['c'])]).next_expected_sequence
            ((on_receive 8 ⟨1, [(2, ['c'])]⟩ ⟨1, ['b']⟩).state.next_expected_sequence
              - (ReassemblyState.mk 1 [(2, ['c'])]).next_expected_sequence)
      ∧ lookupBuf (on_receive 8 ⟨1, [(2, ['c'])]⟩ ⟨1, ['b']⟩).state.buffer
          (on_receive 8 ⟨1, [(2, ['c'])]⟩ ⟨1, ['b']⟩).state.next_expected_sequence = none
      ∧ (∀ q ∈ (on_receive 8 ⟨1, [(2, ['c'])]⟩ ⟨1, ['b']⟩).delivered.tail,
          (q.sequence, q.payload) ∈ (ReassemblyState.mk 1 [(2, ['c'])]).buffer))
    ∧ ((ReassemblyState.mk 1 [(2, ['c'])]).next_expected_sequence < (1 : Nat) →
        (on_receive 8 ⟨1, [(2, ['c'])]⟩ ⟨1, ['b']⟩).delivered = []
      ∧ (on_receive 8 ⟨1, [(2, ['c'])]⟩ ⟨1, ['b']⟩).state.next_expected_sequence
          = (ReassemblyState.mk 1 [(2, ['c'])]).next_expected_sequence
      ∧ ((ReassemblyState.mk 1 [(2, ['c'])]).buffer.length ≤ 8 →
          (on_receive 8 ⟨1, [(2, ['c'])]⟩ ⟨1, ['b']⟩).state.buffer.length ≤ 8)
      ∧ (lookupBuf (ReassemblyState.mk 1 [(2, ['c'])]).buffer 1 = none →
          (ReassemblyState.mk 1 [(2, ['c'])]).buffer.length < 8 →
          (on_receive 8 ⟨1, [(2, ['c'])]⟩ ⟨1, ['b']⟩).state.buffer
            = (1, ['b']) :: (ReassemblyState.mk 1 [(2, ['c'])]).buffer))
    ∧ ((1 : Nat) < (ReassemblyState.mk 1 [(2, ['c'])]).next_expected_sequence →
        (on_receive 8 ⟨1, [(2, ['c'])]⟩ ⟨1, ['b']⟩).state = ⟨1, [(2, ['c'])]⟩
      ∧ (on_receive 8 ⟨1, [(2, ['c'])]⟩ ⟨1, ['b']⟩).delivered = []
      ∧ (on_receive 8 ⟨1, [(2, ['c'])]⟩ ⟨1, ['b']⟩).ack_sent = true)
    ∧ ((on_receive 8 ⟨1, [(2, ['c'])]⟩ ⟨1, ['b']⟩).state.next_expected_sequence
          ≠ (ReassemblyState.mk 1 [(2, ['c'])]).next_expected_sequence →
        (1 : Nat) = (ReassemblyState.mk 1 [(2, ['c'])]).next_expected_sequence) :=
  on_receive_case_behavior 8 ⟨1, [(2, ['c'])]⟩ ⟨1, ['b']⟩ (by constructor <;> decide)

/-- Modelled from the spec: §3 "Unacknowledged-Send Record" — one record per
outstanding packet, owned by the Acknowledgement Tracker: the packet copy for
retransmission, its retry count, last send time and timeout deadline. -/
structure SendRecord where
  sequence : Nat
  payload : Bytes
  retry_count : Nat
  last_sent_time : Nat
  timeout_deadline : Nat
deriving DecidableEq, Repr

/-- Reliability configuration the samples set on the client:
`set_max_retries` and `set_retransmission_timeout`. -/
structure TrackerConfig where
  max_retries : Nat
  retransmission_timeout : Nat
deriving DecidableEq, Repr

/-- Modelled from the spec: §4.2 Acknowledgement Tracker state — the
unacknowledged-send records together with the retransmitted and dropped
counters it drives. -/
structure TrackerState where
  records : List SendRecord
  packets_retransmitted : Nat
  packets_dropped : Nat
deriving DecidableEq, Repr

def initialTracker : TrackerState := ⟨[], 0, 0⟩

/-- Modelled from the spec: §4.2 `on_send(packet)` — register an
Unacknowledged-Send Record with `timeout_deadline = now +
retransmission_timeout` and a zero retry count. -/
def on_send (cfg : TrackerConfig) (now seq : Nat) (pl : Bytes) (st : TrackerState) :
    TrackerState :=
  { st with records :=
      st.records ++ [⟨seq, pl, 0, now, now + cfg.retransmission_timeout⟩] }

/-- Modelled from the spec: §4.2 `on_ack(ack_number)` with cumulative-ACK
semantics — remove every record with `sequence <= ack_number`. -/
def on_ack (ackNum : Nat) (st : TrackerState) : TrackerState :=
  { st with records := st.records.filter (fun r => decide (ackNum < r.sequence)) }

/-- Modelled from the spec: §4.2 `on_timer_tick()` record scan — for every
record past its deadline, if `retry_count < max_retries` the packet is resent
(retry count incremented, deadline reset), else the record is removed and the
packet dropped.  Returns the surviving records, the packets resent and the
sequence numbers dropped on this tick. -/
def tickRecords (cfg : TrackerConfig) (now : Nat) :
    List SendRecord → List SendRecord × List Packet × List Nat
  | [] => ([], [], [])
  | r :: rest =>
      let t := tickRecords cfg now rest
      if r.timeout_deadline ≤ now then
        if r.retry_count < cfg.max_retries then
          ({ r with retry_count := r.retry_count + 1,
                    last_sent_time := now,
                    timeout_deadline := now + cfg.retransmission_timeout } :: t.1,
           Packet.mk r.sequence r.payload :: t.2.1, t.2.2)
        else
          (t.1, t.2.1, r.sequence :: t.2.2)
      else
        (r :: t.1, t.2.1, t.2.2)

/-- Modelled from the spec: §4.2 `on_timer_tick()` — apply the record scan
and update the retransmitted and dropped counters. -/
def on_timer_tick (cfg : TrackerConfig) (now : Nat) (st : TrackerState) : TrackerState :=
  { records := (tickRecords cfg now st.records).1,
    packets_retransmitted :=
      st.packets_retransmitted + (tickRecords cfg now st.records).2.1.length,
    packets_dropped := st.packets_dropped + (tickRecords cfg now st.records).2.2.length }

/-- Modelled from the spec: the tracker-visible protocol events — an
application send, an inbound cumulative ACK, a retransmission-timer tick. -/
inductive TrackerEvent where
  | send (now seq : Nat) (pl : Bytes)
  | ack (ackNum : Nat)
  | tick (now : Nat)

def trackerStep (cfg : TrackerConfig) (st : TrackerState) : TrackerEvent → TrackerState
  | .send now seq pl => on_send cfg now seq pl st
  | .ack a => on_ack a st
  | .tick now => on_timer_tick cfg now st

def trackerRun (cfg : TrackerConfig) (st : TrackerState)
    (evs : List TrackerEvent) : TrackerState :=
  evs.foldl (trackerStep cfg) st

/-- Spec invariant on Unacknowledged-Send Records: `retry_count <= max_retries`. -/
def RetryInv (cfg : TrackerConfig) (st : TrackerState) : Prop :=
  ∀ r ∈ st.records, r.retry_count ≤ cfg.max_retries

theorem tickRecords_mem {cfg : TrackerConfig} {now : Nat} :
    ∀ {rs : List SendRecord} {r' : SendRecord}, r' ∈ (tickRecords cfg now rs).1 →
      r' ∈ rs ∨ ∃ r ∈ rs, r.retry_count < cfg.max_retries
        ∧ r' = { r with retry_count := r.retry_count + 1,
                        last_sent_time := now,
                        timeout_deadline := now + cfg.retransmission_timeout } := by
  intro rs
  induction rs with
  | nil => intro r' h; simp [tickRecords] at h
  | cons r rest ih =>
    intro r' h
    by_cases hdl : r.timeout_deadline ≤ now
    · by_cases hrc : r.retry_count < cfg.max_retries
      · simp only [tickRecords, if_pos hdl, if_pos hrc] at h
        rcases List.mem_cons.mp h with h | h
        · exact Or.inr ⟨r, List.mem_cons_self r rest, hrc, h⟩
        · rcases ih h with h | ⟨r0, hr0, hlt, heq⟩
          · exact Or.inl (List.mem_cons_of_mem r h)
          · exact Or.inr ⟨r0, List.mem_cons_of_mem r hr0, hlt, heq⟩
      · simp only [tickRecords, if_pos hdl, if_neg hrc] at h
        rcases ih h with h | ⟨r0, hr0, hlt, heq⟩
        · exact Or.inl (List.mem_cons_of_mem r h)
        · exact Or.inr ⟨r0, List.mem_cons_of_mem r hr0, hlt, heq⟩
    · simp only [tickRecords, if_neg hdl] at h
      rcases List.mem_cons.mp h with h | h
      · exact Or.inl (h ▸ List.mem_cons_self r rest)
      · rcases ih h with h | ⟨r0, hr0, hlt, heq⟩
        · exact Or.inl (List.mem_cons_of_mem r h)
        · exact Or.inr ⟨r0, List.mem_cons_of_mem r hr0, hlt, heq⟩

theorem retryInv_step (cfg : TrackerConfig) (st : TrackerState) (ev : TrackerEvent)
    (hinv : RetryInv cfg st) : RetryInv cfg (trackerStep cfg st ev) := by
  cases ev with
  | send now seq pl =>
    intro r hr
    rcases List.mem_append.mp hr with h | h
    · exact hinv r h
    · simp at h
      subst h
      exact Nat.zero_le _
  | ack a =>
    intro r hr
    exact hinv r (List.mem_of_mem_filter hr)
  | tick now =>
    intro r hr
    rcases tickRecords_mem hr with h | ⟨r0, hr0, hlt, heq⟩
    · exact hinv r h
    · subst heq
      exact Nat.succ_le_of_lt hlt

theorem retryInv_run (cfg : TrackerConfig) :
    ∀ (evs : List TrackerEvent) (st : TrackerState), RetryInv cfg st →
      RetryInv cfg (trackerRun cfg st evs) := by
  intro evs
  induction evs with
  | nil => intro st h; exact h
  | cons e rest ih =>
    intro st h
    exact ih (trackerStep cfg st e) (retryInv_step cfg st e h)

/-- Latest timeout deadline among the tracker's records: a timer tick at this
time finds every record past its deadline, the persistent-loss worst case. -/
def recDeadline (st : TrackerState) : Nat :=
  (st.records.map SendRecord.timeout_deadline).foldr max 0

/-- Modelled from the spec: the persistent-loss scenario (§8 "a packet is
dropped every time") — `k` retransmission-timer ticks, each firing after
every pending deadline, with no ACK ever arriving. -/
def lateTicks (cfg : TrackerConfig) : Nat → TrackerState → TrackerState
  | 0, st => st
  | k + 1, st => lateTicks cfg k (on_timer_tick cfg (recDeadline st) st)

theorem lateTicks_succ (cfg : TrackerConfig) :
    ∀ (k : Nat) (st : TrackerState),
      lateTicks cfg (k + 1) st
        = on_timer_tick cfg (recDeadline (lateTicks cfg k st)) (lateTicks cfg k st) := by
  intro k
  induction k with
  | zero => intro st; rfl
  | succ k ihk =>
    intro st
    show lateTicks cfg (k + 1) (on_timer_tick cfg (recDeadline st) st)
      = on_timer_tick cfg (recDeadline (lateTicks cfg (k + 1) st)) (lateTicks cfg (k + 1) st)
    rw [ihk]
    rfl

theorem singleLoss_state (cfg : TrackerConfig) (s : Nat) (pl : Bytes) :
    ∀ k, k ≤ cfg.max_retries →
      lateTicks cfg k (on_send cfg 0 s pl initialTracker)
        = ⟨[⟨s, pl, k, k * cfg.retransmission_timeout,
             (k + 1) * cfg.retransmission_timeout⟩], k, 0⟩ := by
  intro k
  induction k with
  | zero =>
    intro _
    show on_send cfg 0 s pl initialTracker = _
    simp [on_send, initialTracker]
  | succ k ihk =>
    intro hk
    have hk' : k ≤ cfg.max_retries := Nat.le_of_succ_le hk
    have hklt : k < cfg.max_retries := hk
    rw [lateTicks_succ, ihk hk']
    simp [on_timer_tick, tickRecords, recDeadline, hklt, Nat.succ_mul]

theorem singleLoss_drop (cfg : TrackerConfig) (s : Nat) (pl : Bytes) :
    ∀ j, lateTicks cfg (cfg.max_retries + 1 + j) (on_send cfg 0 s pl initialTracker)
      = ⟨[], cfg.max_retries, 1⟩ := by
  intro j
  induction j with
  | zero =>
    rw [lateTicks_succ cfg cfg.max_retries,
      singleLoss_state cfg s pl cfg.max_retries (Nat.le_refl _)]
    simp [on_timer_tick, tickRecords, recDeadline]
  | succ j ihj =>
    have harr : cfg.max_retries + 1 + (j + 1) = (cfg.max_retries + 1 + j) + 1 := rfl
    rw [harr, lateTicks_succ, ihj]
    simp [on_timer_tick, tickRecords, recDeadline]

/-- C3: in every reachable tracker state, every Unacknowledged-Send Record
satisfies `retry_count <= max_retries`; and in the persistent-loss run where
no ACK ever arrives, after any `k <= max_retries` late timer ticks the packet
has been retransmitted exactly `k` times and not dropped, while after
`max_retries + 1` or more late ticks it has been retransmitted exactly
`max_retries` times — never a `max_retries + 1`th time — and its record is
removed with the dropped counter at one. -/
theorem retry_bound (cfg : TrackerConfig) (evs : List TrackerEvent)
    (s k j : Nat) (pl : Bytes) (hk : k ≤ cfg.max_retries) :
    RetryInv cfg (trackerRun cfg initialTracker evs)
    ∧ lateTicks cfg k (on_send cfg 0 s pl initialTracker)
        = ⟨[⟨s, pl, k, k * cfg.retransmission_timeout,
             (k + 1) * cfg.retransmission_timeout⟩], k, 0⟩
    ∧ lateTicks cfg (cfg.max_retries + 1 + j) (on_send cfg 0 s pl initialTracker)
        = ⟨[], cfg.max_retries, 1⟩ :=
  ⟨retryInv_run cfg evs initialTracker (by intro r hr; simp [initialTracker] at hr),
   singleLoss_state cfg s pl k hk,
   singleLoss_drop cfg s pl j⟩

theorem retry_bound_witness :
    RetryInv ⟨2, 10⟩ (trackerRun ⟨2, 10⟩ initialTracker [.send 0 7 ['x'], .tick 10])
    ∧ lateTicks ⟨2, 10⟩ 2 (on_send ⟨2, 10⟩ 0 7 ['x'] initialTracker)
        = ⟨[⟨7, ['x'], 2, 2 * (10 : Nat), (2 + 1) * (10 : Nat)⟩], 2, 0⟩
    ∧ lateTicks ⟨2, 10⟩ ((2 : Nat) + 1 + 1) (on_send ⟨2, 10⟩ 0 7 ['x'] initialTracker)
        = ⟨[], 2, 1⟩ :=
  retry_bound ⟨2, 10⟩ [.send 0 7 ['x'], .tick 10] 7 2 1 ['x'] (by decide)

/-- Reliability mode configured at client construction
(`reliability_mode::reliable_ordered` in the client sample). -/
inductive ReliabilityMode where
  | unreliable
  | reliable_unordered
  | reliable_ordered
deriving DecidableEq, Repr

/-- Modelled from the spec: §4.4 session lifecycle.  The transient `Started`
and `Stopping` phases resolve synchronously inside `start_client` and
`stop_client` in the sample's usage, so the observable phases are these. -/
inductive SessionPhase where
  | created
  | running
  | stopped
deriving DecidableEq, Repr

/-- Modelled from the spec: §3 "Session Statistics" — the monotonically
increasing counters exposed by `get_stats`. -/
structure SessionStats where
  packets_sent : Nat
  packets_received : Nat
  packets_retransmitted : Nat
  packets_dropped : Nat
  acks_sent : Nat
  acks_received : Nat
deriving DecidableEq, Repr

def initialStats : SessionStats := ⟨0, 0, 0, 0, 0, 0⟩

/-- Modelled from the spec: §4.3 Congestion/Flow Window — capacity and the
count of in-flight unacknowledged packets. -/
structure CongestionWindow where
  capacity : Nat
  in_flight : Nat
deriving DecidableEq, Repr

/-- Modelled from the spec: §4.3 `try_reserve_slot()` — succeeds iff the
in-flight count is strictly below capacity, incrementing it on success. -/
def try_reserve_slot (w : CongestionWindow) : Bool × CongestionWindow :=
  if w.in_flight < w.capacity then (true, { w with in_flight := w.in_flight + 1 })
  else (false, w)

/-- Modelled from the spec: §4.3 `release_slot()` — called when a packet is
acknowledged or permanently dropped. -/
def release_slot (w : CongestionWindow) : CongestionWindow :=
  { w with in_flight := w.in_flight - 1 }

/-- Modelled from the spec: §4.4 Reliable Session — the composition of the
sequencer, acknowledgement tracker, congestion window, pending-send queue,
reassembly buffer and statistics behind `reliable_udp_client`. -/
structure SessionState where
  phase : SessionPhase
  mode : ReliabilityMode
  congestion : CongestionWindow
  max_retries : Nat
  retransmission_timeout : Nat
  next_outbound_sequence : Nat
  records : List SendRecord
  queued : List Bytes
  reassembly : ReassemblyState
  stats : SessionStats
deriving DecidableEq, Repr

/-- `get_stats()` — snapshot read of the session statistics. -/
def get_stats (st : SessionState) : SessionStats := st.stats

def trackerCfg (st : SessionState) : TrackerConfig :=
  ⟨st.max_retries, st.retransmission_timeout⟩

/-- A freshly constructed session with the given mode and configuration,
before `start_client` (the client sample: mode `reliable_ordered`,
window 32, retries 5, timeout 200). -/
def mkSession (mode : ReliabilityMode) (cap maxR timeoutMs : Nat) : SessionState :=
  { phase := .created
    mode := mode
    congestion := ⟨cap, 0⟩
    max_retries := maxR
    retransmission_timeout := timeoutMs
    next_outbound_sequence := 0
    records := []
    queued := []
    reassembly := initialState
    stats := initialStats }

/-- Observable outputs the session produces: synchronous call results,
datagram transmissions and retransmissions, application deliveries via the
receive callback, ACKs sent back, and error-callback invocations. -/
inductive Output where
  | startResult (ok : Bool)
  | sendResult (ok : Bool)
  | stopResult (ok : Bool)
  | transmit (p : Packet)
  | retransmit (p : Packet)
  | deliver (pl : Bytes)
  | ackOut (n : Nat)
  | errorCallback (seq : Nat)
deriving DecidableEq, Repr

/-- Modelled from the spec: the session-visible protocol events — the
application-facing calls plus background datagram reception, ACK arrival and
retransmission-timer ticks. -/
inductive SessionEvent where
  | startClient (bindOk : Bool)
  | sendPacket (now : Nat) (pl : Bytes)
  | datagramReceived (p : Packet)
  | ackReceived (ackNum : Nat)
  | timerTick (now : Nat)
  | stopClient

/-- Modelled from the spec: §4.4 and §7 — one step of the session state
machine, returning the successor state and the outputs of the step.
`start_client` binds the datagram channel (`bindOk` is the bind outcome) and
returns its result synchronously; `send_packet` assigns a sequence number,
reserves a congestion slot or queues the payload, and returns success unless
the session is not running; inbound datagrams flow through the reassembly
buffer in `reliable_ordered` mode; a cumulative ACK removes acknowledged
records and releases their slots; a timer tick retransmits or drops timed-out
records, surfacing drops only through the dropped counter and the error
callback; `stop_client` abandons unacknowledged packets as dropped, cancels
retransmission timers and releases the channel. -/
def sessionStep (st : SessionState) : SessionEvent → SessionState × List Output
  | .startClient bindOk =>
      if st.phase = .created then
        if bindOk then ({ st with phase := .running }, [.startResult true])
        else (st, [.startResult false])
      else (st, [.startResult false])
  | .sendPacket now pl =>
      if st.phase = .running then
        if (try_reserve_slot st.congestion).1 then
          ({ st with congestion := (try_reserve_slot st.congestion).2,
                     next_outbound_sequence := st.next_outbound_sequence + 1,
                     records := st.records
                       ++ [⟨st.next_outbound_sequence, pl, 0, now,
                            now + st.retransmission_timeout⟩],
                     stats := { st.stats with
                       packets_sent := st.stats.packets_sent + 1 } },
           [.transmit ⟨st.next_outbound_sequence, pl⟩, .sendResult true])
        else
          ({ st with queued := st.queued ++ [pl] }, [.sendResult true])
      else (st, [.sendResult false])
  | .datagramReceived p =>
      if st.phase = .running then
        match st.mode with
        | .reliable_ordered =>
            let r := on_receive st.congestion.capacity st.reassembly p
            ({ st with reassembly := r.state,
                       stats := { st.stats with
                         packets_received :=
                           st.stats.packets_received + r.delivered.length,
                         acks_sent :=
                           st.stats.acks_sent + (if r.ack_sent then 1 else 0) } },
             r.delivered.map (fun q => Output.deliver q.payload)
               ++ (if r.ack_sent
                   then [Output.ackOut r.state.next_expected_sequence] else []))
        | _ =>
            ({ st with stats := { st.stats with
                 packets_received := st.stats.packets_received + 1,
                 acks_sent := st.stats.acks_sent
                   + (if st.mode = .reliable_unordered then 1 else 0) } },
             [Output.deliver p.payload]
               ++ (if st.mode = .reliable_unordered
                   then [Output.ackOut p.sequence] else []))
      else (st, [])
  | .ackReceived a =>
      if st.phase = .running then
        ({ st with
             records := st.records.filter (fun r => decide (a < r.sequence)),
             congestion := { st.congestion with
               in_flight := st.congestion.in_flight
                 - (st.records.length
                     - (st.records.filter (fun r => decide (a < r.sequence))).length) },
             stats := { st.stats with
               acks_received := st.stats.acks_received + 1 } },
         [])
      else (st, [])
  | .timerTick now =>
      if st.phase = .running then
        ({ st with
             records := (tickRecords (trackerCfg st) now st.records).1,
             congestion := { st.congestion with
               in_flight := st.congestion.in_flight
                 - (tickRecords (trackerCfg st) now st.records).2.2.length },
             stats := { st.stats with
               packets_retransmitted := st.stats.packets_retransmitted
                 + (tickRecords (trackerCfg st) now st.records).2.1.length,
               packets_dropped := st.stats.packets_dropped
                 + (tickRecords (trackerCfg st) now st.records).2.2.length } },
         (tickRecords (trackerCfg st) now st.records).2.1.map Output.retransmit
           ++ (tickRecords (trackerCfg st) now st.records).2.2.map Output.errorCallback)
      else (st, [])
  | .stopClient =>
      if st.phase = .running then
        ({ st with phase := .stopped,
                   records := [],
                   queued := [],
                   congestion := { st.congestion with in_flight := 0 },
                   stats := { st.stats with
                     packets_dropped := st.stats.packets_dropped + st.records.length } },
         [.stopResult true])
      else (st, [.stopResult false])

/-- A whole run of the session state machine, collecting all outputs. -/
def sessionRun (st : SessionState) : List SessionEvent → SessionState × List Output
  | [] => (st, [])
  | e :: rest =>
      let r := sessionStep st e
      let rr := sessionRun r.1 rest
      (rr.1, r.2 ++ rr.2)

theorem try_reserve_slot_iff (w : CongestionWindow) :
    (try_reserve_slot w).1 = true ↔ w.in_flight < w.capacity := by
  by_cases h : w.in_flight < w.capacity <;> simp [try_reserve_slot, h]

theorem try_reserve_slot_true {w : CongestionWindow}
    (h : (try_reserve_slot w).1 = true) :
    (try_reserve_slot w).2 = { w with in_flight := w.in_flight + 1 } := by
  have hlt := (try_reserve_slot_iff w).mp h
  simp [try_reserve_slot, hlt]

theorem try_reserve_slot_false {w : CongestionWindow}
    (h : (try_reserve_slot w).1 = false) : (try_reserve_slot w).2 = w := by
  by_cases hlt : w.in_flight < w.capacity
  · rw [(try_reserve_slot_iff w).mpr hlt] at h
    exact absurd h (by simp)
  · simp [try_reserve_slot, hlt]

theorem tickRecords_length (cfg : TrackerConfig) (now : Nat) :
    ∀ rs : List SendRecord,
      (tickRecords cfg now rs).1.length + (tickRecords cfg now rs).2.2.length
        = rs.length := by
  intro rs
  induction rs with
  | nil => simp [tickRecords]
  | cons r rest ih =>
    by_cases hdl : r.timeout_deadline ≤ now
    · by_cases hrc : r.retry_count < cfg.max_retries
      · simp only [tickRecords, if_pos hdl, if_pos hrc, List.length_cons]
        omega
      · simp only [tickRecords, if_pos hdl, if_neg hrc, List.length_cons]
        omega
    · simp only [tickRecords, if_neg hdl, List.length_cons]
      omega

theorem sessionStep_window (st : SessionState) (e : SessionEvent)
    (h1 : st.records.length = st.congestion.in_flight)
    (h2 : st.congestion.in_flight ≤ st.congestion.capacity) :
    (sessionStep st e).1.records.length = (sessionStep st e).1.congestion.in_flight
    ∧ (sessionStep st e).1.congestion.in_flight
        ≤ (sessionStep st e).1.congestion.capacity
    ∧ (sessionStep st e).1.congestion.capacity = st.congestion.capacity := by
  cases e with
  | startClient bindOk =>
    by_cases hph : st.phase = .created
    · cases bindOk <;> simp [sessionStep, hph, h1, h2]
    · simp [sessionStep, hph, h1, h2]
  | sendPacket now pl =>
    by_cases hph : st.phase = .running
    · by_cases hres : (try_reserve_slot st.congestion).1 = true
      · have hlt := (try_reserve_slot_iff st.congestion).mp hres
        have h2' := try_reserve_slot_true hres
        simp [sessionStep, hph, hres, h2', h1]
        omega
      · have hres' : (try_reserve_slot st.congestion).1 = false := by
          simpa using hres
        simp [sessionStep, hph, hres', h1, h2]
    · simp [sessionStep, hph, h1, h2]
  | datagramReceived p =>
    by_cases hph : st.phase = .running
    · cases hm : st.mode <;> simp [sessionStep, hph, hm, h1, h2]
    · simp [sessionStep, hph, h1, h2]
  | ackReceived a =>
    by_cases hph : st.phase = .running
    · have hle : (st.records.filter (fun r => decide (a < r.sequence))).length
          ≤ st.records.length := List.length_filter_le _ _
      simp [sessionStep, hph]
      omega
    · simp [sessionStep, hph, h1, h2]
  | timerTick now =>
    by_cases hph : st.phase = .running
    · have hlen := tickRecords_length (trackerCfg st) now st.records
      simp [sessionStep, hph]
      omega
    · simp [sessionStep, hph, h1, h2]
  | stopClient =>
    by_cases hph : st.phase = .running
    · simp [sessionStep, hph]
    · simp [sessionStep, hph, h1, h2]

theorem sessionRun_window :
    ∀ (evs : List SessionEvent) (st : SessionState),
      st.records.length = st.congestion.in_flight →
      st.congestion.in_flight ≤ st.congestion.capacity →
      (sessionRun st evs).1.records.length = (sessionRun st evs).1.congestion.in_flight
      ∧ (sessionRun st evs).1.congestion.in_flight
          ≤ (sessionRun st evs).1.congestion.capacity
      ∧ (sessionRun st evs).1.congestion.capacity = st.congestion.capacity := by
  intro evs
  induction evs with
  | nil => intro st h1 h2; exact ⟨h1, h2, rfl⟩
  | cons e rest ih =>
    intro st h1 h2
    obtain ⟨g1, g2, g3⟩ := sessionStep_window st e h1 h2
    obtain ⟨f1, f2, f3⟩ := ih (sessionStep st e).1 g1 g2
    exact ⟨f1, f2, f3.trans g3⟩

/-- C4: `try_reserve_slot` succeeds iff the in-flight count is strictly below
capacity; in every state a session reaches from construction, the number of
outstanding Unacknowledged-Send Records is at most the configured congestion
window capacity; and when the window is full an application send is appended
to the pending queue — registering no record, still returning success —
rather than being dropped. -/
theorem congestion_window_bound (mode : ReliabilityMode)
    (cap maxR timeoutMs : Nat) (evs : List SessionEvent) (w : CongestionWindow)
    (st : SessionState) (now : Nat) (pl : Bytes)
    (hrun : st.phase = .running)
    (hfull : st.congestion.capacity ≤ st.congestion.in_flight) :
    ((try_reserve_slot w).1 = true ↔ w.in_flight < w.capacity)
    ∧ (sessionRun (mkSession mode cap maxR timeoutMs) evs).1.records.length ≤ cap
    ∧ (sessionStep st (.sendPacket now pl)).1.queued = st.queued ++ [pl]
    ∧ (sessionStep st (.sendPacket now pl)).1.records = st.records
    ∧ (sessionStep st (.sendPacket now pl)).2 = [.sendResult true] := by
  have hinit1 : (mkSession mode cap maxR timeoutMs).records.length
      = (mkSession mode cap maxR timeoutMs).congestion.in_flight := by
    simp [mkSession]
  have hinit2 : (mkSession mode cap maxR timeoutMs).congestion.in_flight
      ≤ (mkSession mode cap maxR timeoutMs).congestion.capacity := by
    simp [mkSession]
  obtain ⟨f1, f2, f3⟩ := sessionRun_window evs (mkSession mode cap maxR timeoutMs)
    hinit1 hinit2
  have hres : (try_reserve_slot st.congestion).1 = false := by
    have : ¬ st.congestion.in_flight < st.congestion.capacity := by omega
    rcases Bool.eq_false_or_eq_true (try_reserve_slot st.congestion).1 with h | h
    · exact absurd ((try_reserve_slot_iff st.congestion).mp h) this
    · exact h
  refine ⟨try_reserve_slot_iff w, ?_, ?_, ?_, ?_⟩
  · have : (mkSession mode cap maxR timeoutMs).congestion.capacity = cap := by
      simp [mkSession]
    omega
  · simp [sessionStep, hrun, hres]
  · simp [sessionStep, hrun, hres]
  · simp [sessionStep, hrun, hres]

/-- A running session whose congestion window is full, used by witnesses. -/
def sessionFullWitness : SessionState :=
  { phase := .running
    mode := .reliable_ordered
    congestion := ⟨1, 1⟩
    max_retries := 5
    retransmission_timeout := 200
    next_outbound_sequence := 1
    records := [⟨0, ['a'], 0, 0, 200⟩]
    queued := []
    reassembly := initialState
    stats := { initialStats with packets_sent := 1 } }

theorem congestion_window_bound_witness :
    ((try_reserve_slot ⟨4, 4⟩).1 = true ↔ (4 : Nat) < 4)
    ∧ (sessionRun (mkSession .reliable_ordered 2 5 200)
        [.startClient true, .sendPacket 0 ['a'], .sendPacket 0 ['b'],
         .sendPacket 0 ['c']]).1.records.length ≤ 2
    ∧ (sessionStep sessionFullWitness (.sendPacket 0 ['d'])).1.queued
        = sessionFullWitness.queued ++ [['d']]
    ∧ (sessionStep sessionFullWitness (.sendPacket 0 ['d'])).1.records
        = sessionFullWitness.records
    ∧ (sessionStep sessionFullWitness (.sendPacket 0 ['d'])).2
        = [.sendResult true] :=
  congestion_window_bound .reliable_ordered 2 5 200
    [.startClient true, .sendPacket 0 ['a'], .sendPacket 0 ['b'], .sendPacket 0 ['c']]
    ⟨4, 4⟩ sessionFullWitness 0 ['d'] (by decide) (by decide)

/-- Pointwise order on statistics snapshots: every counter of the first is at
most the corresponding counter of the second. -/
def StatsLE (a b : SessionStats) : Prop :=
  a.packets_sent ≤ b.packets_sent
  ∧ a.packets_received ≤ b.packets_received
  ∧ a.packets_retransmitted ≤ b.packets_retransmitted
  ∧ a.packets_dropped ≤ b.packets_dropped
  ∧ a.acks_sent ≤ b.acks_sent
  ∧ a.acks_received ≤ b.acks_received

theorem statsLE_refl (a : SessionStats) : StatsLE a a :=
  ⟨Nat.le_refl _, Nat.le_refl _, Nat.le_refl _, Nat.le_refl _, Nat.le_refl _, Nat.le_refl _⟩

theorem statsLE_trans {a b c : SessionStats} (h1 : StatsLE a b) (h2 : StatsLE b c) :
    StatsLE a c :=
  ⟨Nat.le_trans h1.1 h2.1, Nat.le_trans h1.2.1 h2.2.1,
   Nat.le_trans h1.2.2.1 h2.2.2.1, Nat.le_trans h1.2.2.2.1 h2.2.2.2.1,
   Nat.le_trans h1.2.2.2.2.1 h2.2.2.2.2.1, Nat.le_trans h1.2.2.2.2.2 h2.2.2.2.2.2⟩

theorem sessionStep_stats (st : SessionState) (e : SessionEvent) :
    StatsLE st.stats (sessionStep st e).1.stats := by
  cases e with
  | startClient bindOk =>
    by_cases hph : st.phase = .created
    · cases bindOk <;> simp [sessionStep, hph, statsLE_refl]
    · simp [sessionStep, hph, statsLE_refl]
  | sendPacket now pl =>
    by_cases hph : st.phase = .running
    · by_cases hres : (try_reserve_slot st.congestion).1 = true
      · simp [sessionStep, hph, hres, StatsLE, Nat.le_add_right]
      · have hres' : (try_reserve_slot st.congestion).1 = false := by simpa using hres
        simp [sessionStep, hph, hres', statsLE_refl]
    · simp [sessionStep, hph, statsLE_refl]
  | datagramReceived p =>
    by_cases hph : st.phase = .running
    · cases hm : st.mode
        <;> simp [sessionStep, hph, hm, StatsLE, Nat.le_add_right]
    · simp [sessionStep, hph, statsLE_refl]
  | ackReceived a =>
    by_cases hph : st.phase = .running
    · simp [sessionStep, hph, StatsLE, Nat.le_add_right]
    · simp [sessionStep, hph, statsLE_refl]
  | timerTick now =>
    by_cases hph : st.phase = .running
    · simp [sessionStep, hph, StatsLE, Nat.le_add_right]
    · simp [sessionStep, hph, statsLE_refl]
  | stopClient =>
    by_cases hph : st.phase = .running
    · simp [sessionStep, hph, StatsLE, Nat.le_add_right]
    · simp [sessionStep, hph, statsLE_refl]

/-- C7: every Session Statistics counter — packets sent, packets received,
packets retransmitted, packets dropped, ACKs sent, ACKs received — is
monotonically non-decreasing: over any sequence of protocol events, no
counter in the snapshot returned by `get_stats` ever decreases. -/
theorem stats_monotone :
    ∀ (evs : List SessionEvent) (st : SessionState),
      StatsLE (get_stats st) (get_stats (sessionRun st evs).1) := by
  intro evs
  induction evs with
  | nil => intro st; exact statsLE_refl _
  | cons e rest ih =>
    intro st
    exact statsLE_trans (sessionStep_stats st e) (ih (sessionStep st e).1)

/-- Does an output retransmit a packet on the wire? -/
def isRetransmit : Output → Bool
  | .retransmit _ => true
  | _ => false

/-- Is an output a synchronous result of the caller's `send_packet`? -/
def isSendResult : Output → Bool
  | .sendResult _ => true
  | _ => false

/-- Is an output an invocation of the application error callback? -/
def isErrorCallback : Output → Bool
  | .errorCallback _ => true
  | _ => false

theorem stopped_step (st : SessionState) (e : SessionEvent)
    (h : st.phase = .stopped) :
    (sessionStep st e).1 = st ∧ ((sessionStep st e).2.filter isRetransmit) = [] := by
  cases e with
  | startClient bindOk =>
    cases bindOk <;> simp [sessionStep, h, isRetransmit]
  | sendPacket now pl => simp [sessionStep, h, isRetransmit]
  | datagramReceived p => simp [sessionStep, h]
  | ackReceived a => simp [sessionStep, h]
  | timerTick now => simp [sessionStep, h]
  | stopClient => simp [sessionStep, h, isRetransmit]

theorem stopped_run :
    ∀ (evs : List SessionEvent) (st : SessionState), st.phase = .stopped →
      (sessionRun st evs).1 = st ∧ ((sessionRun st evs).2.filter isRetransmit) = [] := by
  intro evs
  induction evs with
  | nil => intro st h; exact ⟨rfl, rfl⟩
  | cons e rest ih =>
    intro st h
    obtain ⟨h1, h2⟩ := stopped_step st e h
    obtain ⟨g1, g2⟩ := ih (sessionStep st e).1 (by rw [h1]; exact h)
    refine ⟨g1.trans h1, ?_⟩
    show ((sessionStep st e).2 ++ (sessionRun (sessionStep st e).1 rest).2).filter
        isRetransmit = []
    rw [List.filter_append, h2, g2]
    rfl

/-- C8: after `stop_client` completes, the session is stopped, every packet
still unacknowledged at stop time has been abandoned and counted in the
dropped-packet counter, and over any subsequent events no packet is ever
retransmitted: no retransmit output occurs and the retransmitted counter
never moves again. -/
theorem never_retransmit_after_stop (st : SessionState) (evs : List SessionEvent)
    (hrun : st.phase = .running) :
    (sessionStep st .stopClient).1.phase = .stopped
    ∧ (sessionStep st .stopClient).1.records = []
    ∧ (sessionStep st .stopClient).1.stats.packets_dropped
        = st.stats.packets_dropped + st.records.length
    ∧ ((sessionRun (sessionStep st .stopClient).1 evs).2.filter isRetransmit) = []
    ∧ (sessionRun (sessionStep st .stopClient).1 evs).1.stats.packets_retransmitted
        = st.stats.packets_retransmitted
    ∧ (sessionRun (sessionStep st .stopClient).1 evs).1.phase = .stopped := by
  have hstop : (sessionStep st .stopClient).1.phase = .stopped := by
    simp [sessionStep, hrun]
  obtain ⟨h1, h2⟩ := stopped_run evs (sessionStep st .stopClient).1 hstop
  refine ⟨hstop, ?_, ?_, h2, ?_, ?_⟩
  · simp [sessionStep, hrun]
  · simp [sessionStep, hrun]
  · rw [h1]
    simp [sessionStep, hrun]
  · rw [h1]
    exact hstop

theorem never_retransmit_after_stop_witness :
    (sessionStep sessionFullWitness .stopClient).1.phase = .stopped
    ∧ (sessionStep sessionFullWitness .stopClient).1.records = []
    ∧ (sessionStep sessionFullWitness .stopClient).1.stats.packets_dropped
        = sessionFullWitness.stats.packets_dropped + sessionFullWitness.records.length
    ∧ ((sessionRun (sessionStep sessionFullWitness .stopClient).1
          [.timerTick 1000, .sendPacket 0 ['e']]).2.filter isRetransmit) = []
    ∧ (sessionRun (sessionStep sessionFullWitness .stopClient).1
          [.timerTick 1000, .sendPacket 0 ['e']]).1.stats.packets_retransmitted
        = sessionFullWitness.stats.packets_retransmitted
    ∧ (sessionRun (sessionStep sessionFullWitness .stopClient).1
          [.timerTick 1000, .sendPacket 0 ['e']]).1.phase = .stopped :=
  never_retransmit_after_stop sessionFullWitness
    [.timerTick 1000, .sendPacket 0 ['e']] (by decide)

/-- C6: per-packet delivery failures never surface through the caller's
`send_packet` — in a running session `send_packet` returns success, emits no
error callback and no failure result, while retry-budget exhaustion during a
timer tick surfaces only as a dropped-counter increment plus one error
callback per dropped packet, never as any send result — whereas
session-establishment failure (a failed bind of the datagram channel) is
returned synchronously as the failure result of `start_client`, leaving the
session unstarted. -/
theorem error_propagation_policy (st st0 : SessionState) (now : Nat)
    (pl : Bytes) (bindOk : Bool)
    (hrun : st.phase = .running) (hcreated : st0.phase = .created) :
    Output.sendResult true ∈ (sessionStep st (.sendPacket now pl)).2
    ∧ ((sessionStep st (.sendPacket now pl)).2.filter isErrorCallback) = []
    ∧ Output.sendResult false ∉ (sessionStep st (.sendPacket now pl)).2
    ∧ ((sessionStep st (.timerTick now)).2.filter isSendResult) = []
    ∧ (sessionStep st (.timerTick now)).1.stats.packets_dropped
        = st.stats.packets_dropped
          + (tickRecords (trackerCfg st) now st.records).2.2.length
    ∧ ((sessionStep st (.timerTick now)).2.filter isErrorCallback)
        = (tickRecords (trackerCfg st) now st.records).2.2.map Output.errorCallback
    ∧ (sessionStep st0 (.startClient bindOk)).2 = [.startResult bindOk]
    ∧ (sessionStep st0 (.startClient false)).1.phase = .created := by
  have hmapsr : ∀ l : List Packet,
      (l.map Output.retransmit).filter isSendResult = [] := by
    intro l
    refine List.filter_eq_nil_iff.mpr ?_
    intro a ha
    obtain ⟨p, _, hp⟩ := List.mem_map.mp ha
    rw [← hp]
    simp [isSendResult]
  have hmapec : ∀ l : List Nat,
      (l.map Output.errorCallback).filter isSendResult = [] := by
    intro l
    refine List.filter_eq_nil_iff.mpr ?_
    intro a ha
    obtain ⟨p, _, hp⟩ := List.mem_map.mp ha
    rw [← hp]
    simp [isSendResult]
  have hmaprec : ∀ l : List Packet,
      (l.map Output.retransmit).filter isErrorCallback = [] := by
    intro l
    refine List.filter_eq_nil_iff.mpr ?_
    intro a ha
    obtain ⟨p, _, hp⟩ := List.mem_map.mp ha
    rw [← hp]
    simp [isErrorCallback]
  have hmapecec : ∀ l : List Nat,
      (l.map Output.errorCallback).filter isErrorCallback
        = l.map Output.errorCallback := by
    intro l
    refine List.filter_eq_self.mpr ?_
    intro a ha
    obtain ⟨p, _, hp⟩ := List.mem_map.mp ha
    rw [← hp]
    simp [isErrorCallback]
  refine ⟨?_, ?_, ?_, ?_, ?_, ?_, ?_, ?_⟩
  · by_cases hres : (try_reserve_slot st.congestion).1 = true
    · simp [sessionStep, hrun, hres]
    · have hres' : (try_reserve_slot st.congestion).1 = false := by simpa using hres
      simp [sessionStep, hrun, hres']
  · by_cases hres : (try_reserve_slot st.congestion).1 = true
    · simp [sessionStep, hrun, hres, isErrorCallback]
    · have hres' : (try_reserve_slot st.congestion).1 = false := by simpa using hres
      simp [sessionStep, hrun, hres', isErrorCallback]
  · by_cases hres : (try_reserve_slot st.congestion).1 = true
    · simp [sessionStep, hrun, hres]
    · have hres' : (try_reserve_slot st.congestion).1 = false := by simpa using hres
      simp [sessionStep, hrun, hres']
  · have hout : (sessionStep st (.timerTick now)).2
        = (tickRecords (trackerCfg st) now st.records).2.1.map Output.retransmit
          ++ (tickRecords (trackerCfg st) now st.records).2.2.map
              Output.errorCallback := by
      simp [sessionStep, hrun]
    rw [hout, List.filter_append, hmapsr, hmapec]
    rfl
  · simp [sessionStep, hrun]
  · have hout : (sessionStep st (.timerTick now)).2
        = (tickRecords (trackerCfg st) now st.records).2.1.map Output.retransmit
          ++ (tickRecords (trackerCfg st) now st.records).2.2.map
              Output.errorCallback := by
      simp [sessionStep, hrun]
    rw [hout, List.filter_append, hmaprec, hmapecec]
    rfl
  · cases bindOk <;> simp [sessionStep, hcreated]
  · simp [sessionStep, hcreated]

theorem error_propagation_policy_witness :
    Output.sendResult true
        ∈ (sessionStep sessionFullWitness (.sendPacket 5 ['f'])).2
    ∧ ((sessionStep sessionFullWitness (.sendPacket 5 ['f'])).2.filter
          isErrorCallback) = []
    ∧ Output.sendResult false
        ∉ (sessionStep sessionFullWitness (.sendPacket 5 ['f'])).2
    ∧ ((sessionStep sessionFullWitness (.timerTick 5)).2.filter isSendResult) = []
    ∧ (sessionStep sessionFullWitness (.timerTick 5)).1.stats.packets_dropped
        = sessionFullWitness.stats.packets_dropped
          + (tickRecords (trackerCfg sessionFullWitness) 5
              sessionFullWitness.records).2.2.length
    ∧ ((sessionStep sessionFullWitness (.timerTick 5)).2.filter isErrorCallback)
        = (tickRecords (trackerCfg sessionFullWitness) 5
            sessionFullWitness.records).2.2.map Output.errorCallback
    ∧ (sessionStep (mkSession .reliable_ordered 32 5 200)
          (.startClient false)).2 = [.startResult false]
    ∧ (sessionStep (mkSession .reliable_ordered 32 5 200)
          (.startClient false)).1.phase = .created :=
  error_propagation_policy sessionFullWitness (mkSession .reliable_ordered 32 5 200)
    5 ['f'] false (by decide) (by decide)

/-- A UDP endpoint (address and port) as seen by the echo server's receive
callback (`asio::ip::udp::endpoint`). -/
structure Endpoint where
  host : String
  port : Nat
deriving DecidableEq, Repr

/-- The configuration calls a sample can make on a networking object before
starting it. -/
inductive ServerConfigCall where
  | setReceiveCallback
  | setErrorCallback
  | setCongestionWindow (n : Nat)
  | setMaxRetries (n : Nat)
  | setRetransmissionTimeout (ms : Nat)
  | setReliabilityMode (m : ReliabilityMode)
deriving DecidableEq, Repr

/-- Is a configuration call part of the reliability layer (congestion window,
retries, retransmission timeout, reliability mode)? -/
def isReliabilityConfig : ServerConfigCall → Bool
  | .setCongestionWindow _ => true
  | .setMaxRetries _ => true
  | .setRetransmissionTimeout _ => true
  | .setReliabilityMode _ => true
  | _ => false

/-- The setup calls `reliable_udp_echo_server.cpp` `main` performs on its
`messaging_udp_server` before `start_server`: only the receive callback and
the error callback are installed (lines 105-146). -/
def serverSetupCalls : List ServerConfigCall :=
  [.setReceiveCallback, .setErrorCallback]

/-- The receive callback of `reliable_udp_echo_server.cpp` (lines 105-139):
the datagram bytes are turned into a string, the reply string is
`"Reliable Echo: "` concatenated with that message, and exactly one
`async_send_to` of the reply's bytes is issued to the sender's endpoint. -/
def serverReceiveCallback (sender : Endpoint) (data : Bytes) :
    List (Endpoint × Bytes) :=
  let message : String := ⟨data⟩
  let echo_msg : String := "Reliable Echo: " ++ message
  [(sender, echo_msg.data)]

/-- C9: for every datagram with payload `m` from sender `s`, the echo
server's receive callback issues exactly one reply send, addressed to `s`,
whose payload is the byte sequence of `"Reliable Echo: "` concatenated with
`m`; and the server is a plain `messaging_udp_server` on which no
reliability-layer configuration call is made. -/
theorem echo_server_reply (s : Endpoint) (m : Bytes) :
    serverReceiveCallback s m = [(s, ("Reliable Echo: ").data ++ m)]
    ∧ (serverReceiveCallback s m).length = 1
    ∧ (serverReceiveCallback s m).map Prod.fst = [s]
    ∧ serverSetupCalls.filter isReliabilityConfig = [] := by
  refine ⟨?_, rfl, rfl, rfl⟩
  show [(s, (("Reliable Echo: " : String) ++ ⟨m⟩).data)] = [(s, ("Reliable Echo: ").data ++ m)]
  rw [String.data_append]

/-- The application-level success rate printed by
`reliable_udp_echo_client.cpp` `main` (lines 169-173): guarded integer
percentage `received * 100 / sent`, printing 0 when nothing was sent. -/
def clientSuccessRate (sent received : Nat) : Nat :=
  if 0 < sent then received * 100 / sent else 0

/-- The success rate printed by `reliable_udp_echo_server.cpp` `main`
(lines 185-189): guarded integer percentage `sent * 100 / received`,
printing 0 when nothing was received. -/
def serverSuccessRate (received sent : Nat) : Nat :=
  if 0 < received then sent * 100 / received else 0

/-- Division that refuses a zero divisor, to witness that the guarded
computations never divide by zero. -/
def checkedDiv (a b : Nat) : Option Nat :=
  if b = 0 then none else some (a / b)

/-- `clientSuccessRate` with its division routed through `checkedDiv`. -/
def clientSuccessRateChecked (sent received : Nat) : Option Nat :=
  if 0 < sent then checkedDiv (received * 100) sent else some 0

/-- `serverSuccessRate` with its division routed through `checkedDiv`. -/
def serverSuccessRateChecked (received sent : Nat) : Option Nat :=
  if 0 < received then checkedDiv (sent * 100) received else some 0

/-- C10: neither final success-rate computation ever divides by zero — the
client divides only when its sent counter is positive and the server only
when its received counter is positive, each yielding 0 otherwise, so the
checked computation always produces the printed value. -/
theorem success_rate_no_div_by_zero (sent received : Nat) :
    clientSuccessRateChecked sent received = some (clientSuccessRate sent received)
    ∧ serverSuccessRateChecked received sent = some (serverSuccessRate received sent)
    ∧ clientSuccessRate 0 received = 0
    ∧ serverSuccessRate 0 sent = 0 := by
  refine ⟨?_, ?_, rfl, rfl⟩
  · by_cases h : 0 < sent
    · have hne : sent ≠ 0 := Nat.pos_iff_ne_zero.mp h
      simp [clientSuccessRateChecked, clientSuccessRate, checkedDiv, h, hne]
    · simp [clientSuccessRateChecked, clientSuccessRate, h]
  · by_cases h : 0 < received
    · have hne : received ≠ 0 := Nat.pos_iff_ne_zero.mp h
      simp [serverSuccessRateChecked, serverSuccessRate, checkedDiv, h, hne]
    · simp [serverSuccessRateChecked, serverSuccessRate, h]

end ReliableUdp

